import Mathlib

/-!
Shallow embedding of the esh (embedded shell) core from `esh.c`:
the escape filter (`esh_rx`), the line editor (`handle_char`), the
dispatcher (`execute_command`) and the in-place quote-aware tokenizer
(`make_arg_array`).  Bytes are modelled as `Nat`, the fixed C arrays as
`List Nat`, and the observable effects (echo, erase sequence, prompt,
overflow handler and command callback invocations) as an explicit event
trace.  The compile-time constants `ESH_BUFFER_LEN` and `ESH_ARGC_MAX`
are parameters `BL` and `AM` of every operation.
-/

/-- C `isspace` in the default locale, on a byte: 0x09..0x0D and 0x20. -/
def isspace (c : Nat) : Bool :=
  c == 9 || c == 10 || c == 11 || c == 12 || c == 13 || c == 32

/-- C `isalpha` in the default locale, on a byte: A..Z and a..z. -/
def isalpha (c : Nat) : Bool :=
  decide ((65 ≤ c ∧ c ≤ 90) ∨ (97 ≤ c ∧ c ≤ 122))

/-- Observable effects of the shell core: echo of one byte (`esh_putc`),
a raw print of a byte string (the erase sequence), an invocation of the
overflow handler with the buffer it is passed, an invocation of the
command callback with `argc`, the argv indices it can read and the
NUL-terminated byte strings those indices denote, and the prompt. -/
inductive Event where
  | echo (c : Nat)
  | prints (s : List Nat)
  | overflow (buf : List Nat)
  | callback (argc : Nat) (argvIdx : List Nat) (args : List (List Nat))
  | prompt
deriving DecidableEq, Repr

/-- Modelled from the spec: `struct esh` is declared in `esh.h`, which is
not among the provided sources.  Per the spec's data model it holds a
byte buffer of `BUFFER_LEN + 1` bytes, a count in `[0, BUFFER_LEN + 1]`,
an argv array of `ARGC_MAX` buffer pointers (modelled as indices into
`buffer`), and the two escape-filter flags `IN_ESCAPE` and
`IN_BRACKET_ESCAPE`.  The callback/print/overflow function pointers are
modelled by the event trace instead of being stored. -/
structure Esh where
  buffer : List Nat
  cnt : Nat
  argv : List Nat
  flagIE : Bool
  flagIBE : Bool
deriving DecidableEq, Repr

/-- The zero-initialised context produced by `esh_init` (`memset` to 0). -/
def esh_init (BL AM : Nat) : Esh :=
  ⟨List.replicate (BL + 1) 0, 0, List.replicate AM 0, false, false⟩

/-- Loop state of `make_arg_array` in `esh.c`: the buffer being rewritten
in place, `argc`, the argv index array, the write cursor `dest`, the
`last_was_space` flag and the active `quote` character (0 for none).
`writes` is a ghost trace recording the index of every store
`esh->buffer[...] = ...` the tokenizer performs, in order. -/
structure ArgState where
  buffer : List Nat
  argc : Nat
  argv : List Nat
  dest : Nat
  lastWasSpace : Bool
  quote : Nat
  writes : List Nat
deriving DecidableEq, Repr

/-- One iteration of the `for` loop of `make_arg_array` (esh.c:191-221),
reading `buffer[i]`. -/
def argStep (AM : Nat) (s : ArgState) (i : Nat) : ArgState :=
  let c := s.buffer.getD i 0
  if s.quote ≠ 0 then
    if c = s.quote then
      { s with quote := 0, lastWasSpace := false }
    else
      { s with buffer := s.buffer.set s.dest c, dest := s.dest + 1,
               lastWasSpace := false, writes := s.writes ++ [s.dest] }
  else if isspace c then
    { s with buffer := s.buffer.set s.dest 0, dest := s.dest + 1,
             lastWasSpace := true, writes := s.writes ++ [s.dest] }
  else
    let s1 :=
      if s.lastWasSpace then
        { s with argv := if s.argc < AM then s.argv.set s.argc i else s.argv,
                 argc := s.argc + 1 }
      else s
    if c = 39 ∨ c = 34 then
      { s1 with quote := c, lastWasSpace := false }
    else
      { s1 with buffer := s1.buffer.set s1.dest c, dest := s1.dest + 1,
                lastWasSpace := false, writes := s1.writes ++ [s1.dest] }

/-- The loop of `make_arg_array` run for the first `k` source indices,
from the C function's initial state (`argc = 0`, `dest = 0`,
`last_was_space = true`, no quote). -/
def runTo (AM : Nat) (B A : List Nat) (k : Nat) : ArgState :=
  (List.range k).foldl (argStep AM) ⟨B, 0, A, 0, true, 0, []⟩

/-- `make_arg_array` (esh.c:184-225): run the loop over `buffer[0..cnt)`,
then store the final NUL terminator at `dest` and the defensive
terminator at `BUFFER_LEN`. -/
def make_arg_array (BL AM : Nat) (B A : List Nat) (cnt : Nat) : ArgState :=
  let s := runTo AM B A cnt
  { s with buffer := (s.buffer.set s.dest 0).set BL 0,
           writes := s.writes ++ [s.dest, BL] }

/-- The NUL-terminated byte string a C reader sees starting at index `i`
of the buffer (reads stop at the first NUL, or at the end of the model
array). -/
def cstr (b : List Nat) (i : Nat) : List Nat :=
  (b.drop i).takeWhile (fun c => !(c == 0))

/-- `handle_char` (esh.c:121-146): overflow detection, destructive
backspace, or echo-and-store of an ordinary byte. -/
def handle_char (BL : Nat) (st : Esh) (c : Nat) : Esh × List Event :=
  let is_bksp := c = 8 ∨ c = 127
  if st.cnt > BL ∨ (st.cnt = BL ∧ ¬ is_bksp) then
    let b := st.buffer.set BL 0
    ({ st with cnt := BL + 1, buffer := b }, [Event.overflow b])
  else if is_bksp then
    if st.cnt ≠ 0 then
      ({ st with cnt := st.cnt - 1 }, [Event.prints [8, 32, 8]])
    else (st, [])
  else
    ({ st with buffer := st.buffer.set st.cnt c, cnt := st.cnt + 1 },
     [Event.echo c])

/-- `execute_command` (esh.c:106-118): tokenize, then dispatch to the
overflow handler (argc over `ARGC_MAX`), the callback (positive argc) or
nobody (argc 0); reset `cnt` and print the prompt. -/
def execute_command (BL AM : Nat) (st : Esh) : Esh × List Event :=
  let r := make_arg_array BL AM st.buffer st.argv st.cnt
  let evs :=
    if AM < r.argc then [Event.overflow r.buffer]
    else if 0 < r.argc then
      let ptrs := r.argv.take (min r.argc AM)
      [Event.callback r.argc ptrs (ptrs.map (cstr r.buffer))]
    else []
  ({ st with buffer := r.buffer, argv := r.argv, cnt := 0 },
   evs ++ [Event.prompt])

/-- `esh_rx` (esh.c:75-103): the escape-filter state machine in front of
the line editor. -/
def esh_rx (BL AM : Nat) (st : Esh) (c : Nat) : Esh × List Event :=
  if st.flagIBE then
    if isalpha c then ({ st with flagIE := false, flagIBE := false }, [])
    else (st, [])
  else if st.flagIE then
    if c = 91 ∨ c = 79 then ({ st with flagIBE := true }, [])
    else ({ st with flagIE := false }, [])
  else if c = 0 then (st, [])
  else if c = 27 then ({ st with flagIE := true }, [])
  else if c = 10 then
    let r := execute_command BL AM st
    (r.1, Event.echo 10 :: r.2)
  else handle_char BL st c

/-- Feed a byte sequence one byte at a time through `esh_rx`,
accumulating the emitted events. -/
def feedAll (BL AM : Nat) (st : Esh) (L : List Nat) : Esh × List Event :=
  L.foldl (fun p c => ((esh_rx BL AM p.1 c).1, p.2 ++ (esh_rx BL AM p.1 c).2))
    (st, [])

/-- Reference token counter following the spec's words: one pass over the
line, tracking only the active quote character and whether the previous
byte ended a token, counting a token at every non-whitespace byte that
follows whitespace (quote-aware, never capped). State is
(quote, lastWasSpace, count). -/
def tokStep (s : Nat × Bool × Nat) (c : Nat) : Nat × Bool × Nat :=
  if s.1 ≠ 0 then
    (if c = s.1 then 0 else s.1, false, s.2.2)
  else if isspace c then
    (0, true, s.2.2)
  else
    ((if c = 39 ∨ c = 34 then c else 0), false,
     if s.2.1 then s.2.2 + 1 else s.2.2)

/-- The reference counter run over the first `k` bytes of the buffer. -/
def tokRun (B : List Nat) (k : Nat) : Nat × Bool × Nat :=
  ((List.range k).map (fun i => B.getD i 0)).foldl tokStep (0, true, 0)

/-- The true (uncapped) whitespace-separated, quote-aware token count of
`buffer[0..cnt)`, per the spec's description. -/
def specTokCount (B : List Nat) (cnt : Nat) : Nat :=
  (tokRun B cnt).2.2

/-- Write the bytes of `L` into `b` at consecutive indices starting at
`k` (what a run of ordinary stored bytes does to the buffer). -/
def storeList (b : List Nat) (k : Nat) : List Nat → List Nat
  | [] => b
  | c :: t => storeList (b.set k c) (k + 1) t

/-! ### List helper lemmas -/

theorem getD_set_self : ∀ (l : List Nat) (i v : Nat), i < l.length →
    (l.set i v).getD i 0 = v
  | [], i, _, h => by simp at h
  | _ :: _, 0, _, _ => rfl
  | _ :: t, i + 1, v, h => by
      simpa using getD_set_self t i v (by simpa using h)

theorem getD_set_ne : ∀ (l : List Nat) (i j v : Nat), i ≠ j →
    (l.set i v).getD j 0 = l.getD j 0
  | [], _, _, _, _ => rfl
  | _ :: _, 0, 0, _, h => absurd rfl h
  | _ :: _, 0, _ + 1, _, _ => rfl
  | _ :: _, _ + 1, 0, _, _ => rfl
  | _ :: t, i + 1, j + 1, v, h => by
      simpa using getD_set_ne t i j v (fun e => h (by rw [e]))

theorem set_oob : ∀ (l : List Nat) (i v : Nat), l.length ≤ i → l.set i v = l
  | [], _, _, _ => rfl
  | _ :: _, 0, _, h => by simp at h
  | a :: t, i + 1, v, h => by
      simp only [List.set]
      rw [set_oob t i v (by simpa using h)]

theorem getD_set_or (l : List Nat) (i j v : Nat) :
    (l.set i v).getD j 0 = v ∨ (l.set i v).getD j 0 = l.getD j 0 := by
  by_cases hij : i = j
  · subst hij
    by_cases hl : i < l.length
    · exact Or.inl (getD_set_self l i v hl)
    · right
      rw [set_oob l i v (Nat.le_of_not_lt hl)]
  · exact Or.inr (getD_set_ne l i j v hij)

theorem eq_of_getD : ∀ (l1 l2 : List Nat), l1.length = l2.length →
    (∀ j, j < l1.length → l1.getD j 0 = l2.getD j 0) → l1 = l2
  | [], [], _, _ => rfl
  | [], _ :: _, h, _ => by simp at h
  | _ :: _, [], h, _ => by simp at h
  | a :: t1, b :: t2, h, hj => by
      have h0 : a = b := hj 0 (Nat.succ_pos _)
      have ht : t1 = t2 :=
        eq_of_getD t1 t2 (by simpa using h)
          (fun j hjl => by simpa using hj (j + 1) (by simpa using hjl))
      rw [h0, ht]

theorem take_eq_of_getD : ∀ (m : Nat) (l1 l2 : List Nat),
    m ≤ l1.length → m ≤ l2.length →
    (∀ j, j < m → l1.getD j 0 = l2.getD j 0) → l1.take m = l2.take m
  | 0, _, _, _, _, _ => rfl
  | _ + 1, [], _, h1, _, _ => by simp at h1
  | _ + 1, _ :: _, [], _, h2, _ => by simp at h2
  | m + 1, a :: t1, b :: t2, h1, h2, hj => by
      have h0 : a = b := hj 0 (Nat.succ_pos _)
      have ht : t1.take m = t2.take m :=
        take_eq_of_getD m t1 t2 (by simpa using h1) (by simpa using h2)
          (fun j hjm => by simpa using hj (j + 1) (by simpa using hjm))
      simp [List.take, h0, ht]

/-! ### Unfolding lemmas for the fold-based runs -/

theorem runTo_succ (AM : Nat) (B A : List Nat) (k : Nat) :
    runTo AM B A (k + 1) = argStep AM (runTo AM B A k) k := by
  unfold runTo
  rw [List.range_succ, List.foldl_append]
  rfl

theorem tokRun_succ (B : List Nat) (k : Nat) :
    tokRun B (k + 1) = tokStep (tokRun B k) (B.getD k 0) := by
  unfold tokRun
  rw [List.range_succ, List.map_append, List.foldl_append]
  rfl

/-! ### Branch characterisations of one tokenizer loop iteration -/

theorem argStep_quote_close (AM : Nat) (s : ArgState) (i : Nat)
    (hq : s.quote ≠ 0) (hc : s.buffer.getD i 0 = s.quote) :
    argStep AM s i = { s with quote := 0, lastWasSpace := false } := by
  simp only [argStep]
  rw [if_pos hq, if_pos hc]

theorem argStep_quote_copy (AM : Nat) (s : ArgState) (i : Nat)
    (hq : s.quote ≠ 0) (hc : s.buffer.getD i 0 ≠ s.quote) :
    argStep AM s i =
      { s with buffer := s.buffer.set s.dest (s.buffer.getD i 0),
               dest := s.dest + 1, lastWasSpace := false,
               writes := s.writes ++ [s.dest] } := by
  simp only [argStep]
  rw [if_pos hq, if_neg hc]

theorem argStep_space (AM : Nat) (s : ArgState) (i : Nat)
    (hq : s.quote = 0) (hs : isspace (s.buffer.getD i 0) = true) :
    argStep AM s i =
      { s with buffer := s.buffer.set s.dest 0, dest := s.dest + 1,
               lastWasSpace := true, writes := s.writes ++ [s.dest] } := by
  have hq1 : ¬ (s.quote ≠ 0) := by simp [hq]
  simp only [argStep]
  rw [if_neg hq1, if_pos hs]

theorem argStep_tok_open_new (AM : Nat) (s : ArgState) (i : Nat)
    (hq : s.quote = 0) (hs : isspace (s.buffer.getD i 0) = false)
    (hl : s.lastWasSpace = true)
    (hqc : s.buffer.getD i 0 = 39 ∨ s.buffer.getD i 0 = 34) :
    argStep AM s i =
      { s with argv := if s.argc < AM then s.argv.set s.argc i else s.argv,
               argc := s.argc + 1, quote := s.buffer.getD i 0,
               lastWasSpace := false } := by
  have hq1 : ¬ (s.quote ≠ 0) := by simp [hq]
  have hs1 : ¬ (isspace (s.buffer.getD i 0) = true) := by rw [hs]; simp
  simp only [argStep]
  rw [if_neg hq1, if_neg hs1, if_pos hl, if_pos hqc]

theorem argStep_tok_open_old (AM : Nat) (s : ArgState) (i : Nat)
    (hq : s.quote = 0) (hs : isspace (s.buffer.getD i 0) = false)
    (hl : s.lastWasSpace = false)
    (hqc : s.buffer.getD i 0 = 39 ∨ s.buffer.getD i 0 = 34) :
    argStep AM s i =
      { s with quote := s.buffer.getD i 0, lastWasSpace := false } := by
  have hq1 : ¬ (s.quote ≠ 0) := by simp [hq]
  have hs1 : ¬ (isspace (s.buffer.getD i 0) = true) := by rw [hs]; simp
  have hl1 : ¬ (s.lastWasSpace = true) := by rw [hl]; simp
  simp only [argStep]
  rw [if_neg hq1, if_neg hs1, if_neg hl1, if_pos hqc]

theorem argStep_tok_copy_new (AM : Nat) (s : ArgState) (i : Nat)
    (hq : s.quote = 0) (hs : isspace (s.buffer.getD i 0) = false)
    (hl : s.lastWasSpace = true)
    (hqc : ¬ (s.buffer.getD i 0 = 39 ∨ s.buffer.getD i 0 = 34)) :
    argStep AM s i =
      { s with argv := if s.argc < AM then s.argv.set s.argc i else s.argv,
               argc := s.argc + 1,
               buffer := s.buffer.set s.dest (s.buffer.getD i 0),
               dest := s.dest + 1, lastWasSpace := false,
               writes := s.writes ++ [s.dest] } := by
  have hq1 : ¬ (s.quote ≠ 0) := by simp [hq]
  have hs1 : ¬ (isspace (s.buffer.getD i 0) = true) := by rw [hs]; simp
  simp only [argStep]
  rw [if_neg hq1, if_neg hs1, if_pos hl, if_neg hqc]

theorem argStep_tok_copy_old (AM : Nat) (s : ArgState) (i : Nat)
    (hq : s.quote = 0) (hs : isspace (s.buffer.getD i 0) = false)
    (hl : s.lastWasSpace = false)
    (hqc : ¬ (s.buffer.getD i 0 = 39 ∨ s.buffer.getD i 0 = 34)) :
    argStep AM s i =
      { s with buffer := s.buffer.set s.dest (s.buffer.getD i 0),
               dest := s.dest + 1, lastWasSpace := false,
               writes := s.writes ++ [s.dest] } := by
  have hq1 : ¬ (s.quote ≠ 0) := by simp [hq]
  have hs1 : ¬ (isspace (s.buffer.getD i 0) = true) := by rw [hs]; simp
  have hl1 : ¬ (s.lastWasSpace = true) := by rw [hl]; simp
  simp only [argStep]
  rw [if_neg hq1, if_neg hs1, if_neg hl1, if_neg hqc]

/-- Master loop invariant of the tokenizer scan: the (quote,
last_was_space, argc) components track the reference counter over the
original bytes, the write cursor never outruns the read index, every
store so far hit an index below the read index, positions at or beyond
the read index still hold the original bytes, argv keeps its length,
entries at or beyond `ARGC_MAX` are never written, and every entry is
either its original value or a source index below the read index. -/
theorem runTo_inv (AM : Nat) (B A : List Nat) : ∀ k : Nat,
    (runTo AM B A k).quote = (tokRun B k).1 ∧
    (runTo AM B A k).lastWasSpace = (tokRun B k).2.1 ∧
    (runTo AM B A k).argc = (tokRun B k).2.2 ∧
    (runTo AM B A k).dest ≤ k ∧
    (runTo AM B A k).buffer.length = B.length ∧
    (∀ j, k ≤ j → (runTo AM B A k).buffer.getD j 0 = B.getD j 0) ∧
    (∀ w ∈ (runTo AM B A k).writes, w < k) ∧
    (runTo AM B A k).argv.length = A.length ∧
    (∀ j, AM ≤ j → (runTo AM B A k).argv.getD j 0 = A.getD j 0) ∧
    (∀ j, (runTo AM B A k).argv.getD j 0 = A.getD j 0 ∨
          (runTo AM B A k).argv.getD j 0 < k) := by
  intro k
  induction k with
  | zero =>
      refine ⟨rfl, rfl, rfl, Nat.le_refl 0, rfl, fun j _ => rfl, ?_, rfl,
        fun j _ => rfl, fun j => Or.inl rfl⟩
      intro w hw
      simp [runTo, List.range_zero] at hw
  | succ k ih =>
      obtain ⟨hq, hl, hn, hd, hlen, hsuf, hw, halen, hhi, hlo⟩ := ih
      have hread : (runTo AM B A k).buffer.getD k 0 = B.getD k 0 :=
        hsuf k (Nat.le_refl k)
      rw [runTo_succ, tokRun_succ]
      by_cases hq0 : (runTo AM B A k).quote = 0
      · by_cases hsp : isspace (B.getD k 0) = true
        · -- whitespace outside quotes
          rw [argStep_space AM _ k hq0 (by rw [hread]; exact hsp)]
          have ht : tokStep (tokRun B k) (B.getD k 0) =
              (0, true, (tokRun B k).2.2) := by
            have hq1 : ¬ ((tokRun B k).1 ≠ 0) := by simp [← hq, hq0]
            simp only [tokStep]
            rw [if_neg hq1, if_pos hsp]
          rw [ht]
          refine ⟨by simpa using hq0, rfl, by simpa using hn,
            Nat.succ_le_succ hd, by simpa using hlen, ?_, ?_,
            by simpa using halen, by simpa using hhi, ?_⟩
          · intro j hj
            have hne : (runTo AM B A k).dest ≠ j :=
              Nat.ne_of_lt (Nat.lt_of_le_of_lt hd hj)
            simp only []
            rw [getD_set_ne _ _ _ _ hne]
            exact hsuf j (Nat.le_of_succ_le hj)
          · intro w hwm
            simp only [List.mem_append, List.mem_singleton] at hwm
            rcases hwm with h1 | h2
            · exact Nat.lt_succ_of_lt (hw w h1)
            · rw [h2]; exact Nat.lt_succ_of_le hd
          · intro j
            rcases hlo j with h | h
            · exact Or.inl (by simpa using h)
            · exact Or.inr (Nat.lt_succ_of_lt h)
        · -- non-space outside quotes: token handling
          have hs : isspace ((runTo AM B A k).buffer.getD k 0) = false := by
            rw [hread]; exact Bool.eq_false_iff.mpr hsp
          have ht : tokStep (tokRun B k) (B.getD k 0) =
              ((if B.getD k 0 = 39 ∨ B.getD k 0 = 34 then B.getD k 0 else 0),
               false,
               if (tokRun B k).2.1 then (tokRun B k).2.2 + 1
               else (tokRun B k).2.2) := by
            have hq1 : ¬ ((tokRun B k).1 ≠ 0) := by simp [← hq, hq0]
            have hs1 : ¬ (isspace (B.getD k 0) = true) := hsp
            simp only [tokStep]
            rw [if_neg hq1, if_neg hs1]
          rw [ht]
          by_cases hlw : (runTo AM B A k).lastWasSpace = true
          · by_cases hqc : B.getD k 0 = 39 ∨ B.getD k 0 = 34
            · -- new token starting with a quote character
              rw [argStep_tok_open_new AM _ k hq0 hs hlw (by rw [hread]; exact hqc)]
              refine ⟨by rw [hread]; rw [if_pos hqc], rfl, ?_, Nat.le_succ_of_le hd,
                by simpa using hlen, fun j hj => hsuf j (Nat.le_of_succ_le hj),
                fun w hwm => Nat.lt_succ_of_lt (hw w hwm), ?_, ?_, ?_⟩
              · have h21 : (tokRun B k).2.1 = true := by rw [← hl]; exact hlw
                simp [h21, hn]
              · by_cases hcap : (runTo AM B A k).argc < AM
                · rw [if_pos hcap]
                  simpa using halen
                · rw [if_neg hcap]
                  exact halen
              · intro j hj
                by_cases hcap : (runTo AM B A k).argc < AM
                · rw [if_pos hcap]
                  have hne : (runTo AM B A k).argc ≠ j :=
                    Nat.ne_of_lt (Nat.lt_of_lt_of_le hcap hj)
                  rw [getD_set_ne _ _ _ _ hne]
                  exact hhi j hj
                · rw [if_neg hcap]
                  exact hhi j hj
              · intro j
                by_cases hcap : (runTo AM B A k).argc < AM
                · rw [if_pos hcap]
                  rcases getD_set_or (runTo AM B A k).argv
                      (runTo AM B A k).argc j k with h | h
                  · exact Or.inr (by rw [h]; exact Nat.lt_succ_self k)
                  · rw [h]
                    rcases hlo j with h2 | h2
                    · exact Or.inl h2
                    · exact Or.inr (Nat.lt_succ_of_lt h2)
                · rw [if_neg hcap]
                  rcases hlo j with h2 | h2
                  · exact Or.inl h2
                  · exact Or.inr (Nat.lt_succ_of_lt h2)
            · -- new ordinary token byte, copied through
              rw [argStep_tok_copy_new AM _ k hq0 hs hlw (by rw [hread]; exact hqc)]
              refine ⟨by rw [hread]; rw [if_neg hqc]; simpa using hq0, rfl, ?_,
                Nat.succ_le_succ hd, by simpa using hlen, ?_, ?_, ?_, ?_, ?_⟩
              · have h21 : (tokRun B k).2.1 = true := by rw [← hl]; exact hlw
                simp [h21, hn]
              · intro j hj
                have hne : (runTo AM B A k).dest ≠ j :=
                  Nat.ne_of_lt (Nat.lt_of_le_of_lt hd hj)
                simp only []
                rw [getD_set_ne _ _ _ _ hne]
                exact hsuf j (Nat.le_of_succ_le hj)
              · intro w hwm
                simp only [List.mem_append, List.mem_singleton] at hwm
                rcases hwm with h1 | h2
                · exact Nat.lt_succ_of_lt (hw w h1)
                · rw [h2]; exact Nat.lt_succ_of_le hd
              · by_cases hcap : (runTo AM B A k).argc < AM
                · rw [if_pos hcap]; simpa using halen
                · rw [if_neg hcap]; exact halen
              · intro j hj
                by_cases hcap : (runTo AM B A k).argc < AM
                · rw [if_pos hcap]
                  have hne : (runTo AM B A k).argc ≠ j :=
                    Nat.ne_of_lt (Nat.lt_of_lt_of_le hcap hj)
                  rw [getD_set_ne _ _ _ _ hne]
                  exact hhi j hj
                · rw [if_neg hcap]
                  exact hhi j hj
              · intro j
                by_cases hcap : (runTo AM B A k).argc < AM
                · rw [if_pos hcap]
                  rcases getD_set_or (runTo AM B A k).argv
                      (runTo AM B A k).argc j k with h | h
                  · exact Or.inr (by rw [h]; exact Nat.lt_succ_self k)
                  · rw [h]
                    rcases hlo j with h2 | h2
                    · exact Or.inl h2
                    · exact Or.inr (Nat.lt_succ_of_lt h2)
                · rw [if_neg hcap]
                  rcases hlo j with h2 | h2
                  · exact Or.inl h2
                  · exact Or.inr (Nat.lt_succ_of_lt h2)
          · -- continuation of a token
            have hlf : (runTo AM B A k).lastWasSpace = false :=
              Bool.eq_false_iff.mpr hlw
            by_cases hqc : B.getD k 0 = 39 ∨ B.getD k 0 = 34
            · rw [argStep_tok_open_old AM _ k hq0 hs hlf (by rw [hread]; exact hqc)]
              refine ⟨by rw [hread]; rw [if_pos hqc], rfl, ?_, Nat.le_succ_of_le hd,
                hlen, fun j hj => hsuf j (Nat.le_of_succ_le hj),
                fun w hwm => Nat.lt_succ_of_lt (hw w hwm), halen, hhi, ?_⟩
              · have h21 : (tokRun B k).2.1 = false := by rw [← hl]; exact hlf
                simp [h21, hn]
              · intro j
                rcases hlo j with h | h
                · exact Or.inl h
                · exact Or.inr (Nat.lt_succ_of_lt h)
            · rw [argStep_tok_copy_old AM _ k hq0 hs hlf (by rw [hread]; exact hqc)]
              refine ⟨by rw [hread]; rw [if_neg hqc]; simpa using hq0, rfl, ?_,
                Nat.succ_le_succ hd, by simpa using hlen, ?_, ?_, halen, hhi, ?_⟩
              · have h21 : (tokRun B k).2.1 = false := by rw [← hl]; exact hlf
                simp [h21, hn]
              · intro j hj
                have hne : (runTo AM B A k).dest ≠ j :=
                  Nat.ne_of_lt (Nat.lt_of_le_of_lt hd hj)
                simp only []
                rw [getD_set_ne _ _ _ _ hne]
                exact hsuf j (Nat.le_of_succ_le hj)
              · intro w hwm
                simp only [List.mem_append, List.mem_singleton] at hwm
                rcases hwm with h1 | h2
                · exact Nat.lt_succ_of_lt (hw w h1)
                · rw [h2]; exact Nat.lt_succ_of_le hd
              · intro j
                rcases hlo j with h | h
                · exact Or.inl h
                · exact Or.inr (Nat.lt_succ_of_lt h)
      · -- inside quotes
        have ht0 : (tokRun B k).1 ≠ 0 := by rw [← hq]; exact hq0
        by_cases hc : B.getD k 0 = (runTo AM B A k).quote
        · -- closing quote, byte dropped
          rw [argStep_quote_close AM _ k hq0 (by rw [hread]; exact hc)]
          have ht : tokStep (tokRun B k) (B.getD k 0) =
              (0, false, (tokRun B k).2.2) := by
            simp only [tokStep]
            rw [if_pos ht0, if_pos (by rw [hc, hq])]
          rw [ht]
          refine ⟨rfl, rfl, by simpa using hn, Nat.le_succ_of_le hd, hlen,
            fun j hj => hsuf j (Nat.le_of_succ_le hj),
            fun w hwm => Nat.lt_succ_of_lt (hw w hwm), halen, hhi, ?_⟩
          intro j
          rcases hlo j with h | h
          · exact Or.inl h
          · exact Or.inr (Nat.lt_succ_of_lt h)
        · -- quoted byte copied through
          rw [argStep_quote_copy AM _ k hq0 (by rw [hread]; exact hc)]
          have ht : tokStep (tokRun B k) (B.getD k 0) =
              ((tokRun B k).1, false, (tokRun B k).2.2) := by
            simp only [tokStep]
            rw [if_pos ht0, if_neg (by rw [← hq]; exact hc)]
          rw [ht]
          refine ⟨by simpa using hq, rfl, by simpa using hn,
            Nat.succ_le_succ hd, by simpa using hlen, ?_, ?_, halen, hhi, ?_⟩
          · intro j hj
            have hne : (runTo AM B A k).dest ≠ j :=
              Nat.ne_of_lt (Nat.lt_of_le_of_lt hd hj)
            simp only []
            rw [getD_set_ne _ _ _ _ hne]
            exact hsuf j (Nat.le_of_succ_le hj)
          · intro w hwm
            simp only [List.mem_append, List.mem_singleton] at hwm
            rcases hwm with h1 | h2
            · exact Nat.lt_succ_of_lt (hw w h1)
            · rw [h2]; exact Nat.lt_succ_of_le hd
          · intro j
            rcases hlo j with h | h
            · exact Or.inl h
            · exact Or.inr (Nat.lt_succ_of_lt h)

/-! ### Corollaries about `make_arg_array` -/

theorem make_arg_array_argc (BL AM : Nat) (B A : List Nat) (cnt : Nat) :
    (make_arg_array BL AM B A cnt).argc = specTokCount B cnt :=
  (runTo_inv AM B A cnt).2.2.1

theorem make_arg_array_argv_hi (BL AM : Nat) (B A : List Nat) (cnt : Nat)
    (j : Nat) (hj : AM ≤ j) :
    (make_arg_array BL AM B A cnt).argv.getD j 0 = A.getD j 0 :=
  (runTo_inv AM B A cnt).2.2.2.2.2.2.2.2.1 j hj

theorem make_arg_array_argv_lo (BL AM : Nat) (B A : List Nat) (cnt : Nat)
    (j : Nat) :
    (make_arg_array BL AM B A cnt).argv.getD j 0 = A.getD j 0 ∨
    (make_arg_array BL AM B A cnt).argv.getD j 0 < cnt :=
  (runTo_inv AM B A cnt).2.2.2.2.2.2.2.2.2 j

theorem make_arg_array_argv_len (BL AM : Nat) (B A : List Nat) (cnt : Nat) :
    (make_arg_array BL AM B A cnt).argv.length = A.length :=
  (runTo_inv AM B A cnt).2.2.2.2.2.2.2.1

theorem make_arg_array_buffer_len (BL AM : Nat) (B A : List Nat) (cnt : Nat) :
    (make_arg_array BL AM B A cnt).buffer.length = B.length := by
  show (((runTo AM B A cnt).buffer.set _ 0).set BL 0).length = B.length
  rw [List.length_set, List.length_set]
  exact (runTo_inv AM B A cnt).2.2.2.2.1

/-- Two tokenizer scans over buffers that agree on the scanned prefix
proceed in lockstep: same argc, write cursor, quote state, store trace;
the argv entries both scans populated agree, and wherever the rewritten
buffers differ, both are still untouched original bytes. -/
theorem runTo_sim (AM : Nat) (B1 B2 A1 A2 : List Nat) (n : Nat)
    (hpre : ∀ j, j < n → B1.getD j 0 = B2.getD j 0)
    (hblen : B1.length = B2.length)
    (hA1 : A1.length = AM) (hA2 : A2.length = AM) :
    ∀ k, k ≤ n →
    (runTo AM B1 A1 k).argc = (runTo AM B2 A2 k).argc ∧
    (runTo AM B1 A1 k).dest = (runTo AM B2 A2 k).dest ∧
    (runTo AM B1 A1 k).quote = (runTo AM B2 A2 k).quote ∧
    (runTo AM B1 A1 k).lastWasSpace = (runTo AM B2 A2 k).lastWasSpace ∧
    (runTo AM B1 A1 k).writes = (runTo AM B2 A2 k).writes ∧
    (∀ j, j < (runTo AM B1 A1 k).argc → j < AM →
      (runTo AM B1 A1 k).argv.getD j 0 = (runTo AM B2 A2 k).argv.getD j 0) ∧
    (∀ j, (runTo AM B1 A1 k).buffer.getD j 0 =
            (runTo AM B2 A2 k).buffer.getD j 0 ∨
      ((runTo AM B1 A1 k).buffer.getD j 0 = B1.getD j 0 ∧
       (runTo AM B2 A2 k).buffer.getD j 0 = B2.getD j 0)) := by
  intro k
  induction k with
  | zero =>
      intro _
      exact ⟨rfl, rfl, rfl, rfl, rfl, fun j hj _ => by simp [runTo] at hj,
        fun j => Or.inr ⟨rfl, rfl⟩⟩
  | succ k ih =>
      intro hk
      have hkn : k ≤ n := Nat.le_of_succ_le hk
      have hkln : k < n := Nat.lt_of_succ_le hk
      obtain ⟨sargc, sdest, squote, slws, swrites, sargv, sbuf⟩ := ih hkn
      have u1 := runTo_inv AM B1 A1 k
      have u2 := runTo_inv AM B2 A2 k
      have e1 : (runTo AM B1 A1 k).buffer.getD k 0 = B1.getD k 0 :=
        u1.2.2.2.2.2.1 k (Nat.le_refl k)
      have e2 : (runTo AM B2 A2 k).buffer.getD k 0 = B2.getD k 0 :=
        u2.2.2.2.2.2.1 k (Nat.le_refl k)
      have eq12 : B1.getD k 0 = B2.getD k 0 := hpre k hkln
      have eread : (runTo AM B1 A1 k).buffer.getD k 0 =
          (runTo AM B2 A2 k).buffer.getD k 0 := by rw [e1, e2, eq12]
      have hlen1 : (runTo AM B1 A1 k).buffer.length = B1.length :=
        u1.2.2.2.2.1
      have hlen2 : (runTo AM B2 A2 k).buffer.length = B2.length :=
        u2.2.2.2.2.1
      have halen1 : (runTo AM B1 A1 k).argv.length = A1.length :=
        u1.2.2.2.2.2.2.2.1
      have halen2 : (runTo AM B2 A2 k).argv.length = A2.length :=
        u2.2.2.2.2.2.2.2.1
      rw [runTo_succ, runTo_succ]
      have bufstep : ∀ v1 v2 : Nat, v1 = v2 → ∀ j : Nat,
          ((runTo AM B1 A1 k).buffer.set (runTo AM B1 A1 k).dest v1).getD j 0 =
            ((runTo AM B2 A2 k).buffer.set (runTo AM B2 A2 k).dest v2).getD j 0 ∨
          (((runTo AM B1 A1 k).buffer.set (runTo AM B1 A1 k).dest v1).getD j 0 =
              B1.getD j 0 ∧
           ((runTo AM B2 A2 k).buffer.set (runTo AM B2 A2 k).dest v2).getD j 0 =
              B2.getD j 0) := by
        intro v1 v2 hv j
        subst hv
        by_cases hj : (runTo AM B1 A1 k).dest = j
        · have hj2 : (runTo AM B2 A2 k).dest = j := by rw [← sdest]; exact hj
          by_cases hrange : j < (runTo AM B1 A1 k).buffer.length
          · have hrange2 : j < (runTo AM B2 A2 k).buffer.length := by
              rw [hlen2, ← hblen, ← hlen1]; exact hrange
            left
            rw [hj, hj2, getD_set_self _ _ _ hrange,
              getD_set_self _ _ _ hrange2]
          · have hr1 : (runTo AM B1 A1 k).buffer.length ≤ j :=
              Nat.le_of_not_lt hrange
            have hr2 : (runTo AM B2 A2 k).buffer.length ≤ j := by
              rw [hlen2, ← hblen, ← hlen1]; exact hr1
            rw [hj, hj2, set_oob _ _ _ hr1, set_oob _ _ _ hr2]
            exact sbuf j
        · rw [getD_set_ne _ _ _ _ hj,
            getD_set_ne _ _ _ _ (by rw [← sdest]; exact hj)]
          exact sbuf j
      by_cases hq0 : (runTo AM B1 A1 k).quote = 0
      · have hq02 : (runTo AM B2 A2 k).quote = 0 := by rw [← squote]; exact hq0
        by_cases hsp : isspace (B1.getD k 0) = true
        · rw [argStep_space AM _ k hq0 (by rw [e1]; exact hsp),
            argStep_space AM _ k hq02 (by rw [e2, ← eq12]; exact hsp)]
          exact ⟨sargc, by rw [sdest], squote, rfl, by rw [swrites, sdest],
            sargv, bufstep 0 0 rfl⟩
        · have hs1 : isspace ((runTo AM B1 A1 k).buffer.getD k 0) = false := by
            rw [e1]; exact Bool.eq_false_iff.mpr hsp
          have hs2 : isspace ((runTo AM B2 A2 k).buffer.getD k 0) = false := by
            rw [e2, ← eq12]; exact Bool.eq_false_iff.mpr hsp
          by_cases hlw : (runTo AM B1 A1 k).lastWasSpace = true
          · have hlw2 : (runTo AM B2 A2 k).lastWasSpace = true := by
              rw [← slws]; exact hlw
            have hargveq : ∀ j,
                j < (runTo AM B1 A1 k).argc + 1 → j < AM →
                (if (runTo AM B1 A1 k).argc < AM then
                    (runTo AM B1 A1 k).argv.set (runTo AM B1 A1 k).argc k
                  else (runTo AM B1 A1 k).argv).getD j 0 =
                (if (runTo AM B2 A2 k).argc < AM then
                    (runTo AM B2 A2 k).argv.set (runTo AM B2 A2 k).argc k
                  else (runTo AM B2 A2 k).argv).getD j 0 := by
              intro j hj hjam
              by_cases hcap : (runTo AM B1 A1 k).argc < AM
              · rw [if_pos hcap, if_pos (by rw [← sargc]; exact hcap)]
                by_cases hje : j = (runTo AM B1 A1 k).argc
                · rw [hje, getD_set_self _ _ _ (by rw [halen1, hA1]; exact hcap),
                    sargc, getD_set_self _ _ _
                      (by rw [halen2, hA2, ← sargc]; exact hcap)]
                · rw [getD_set_ne _ _ _ _ (fun e => hje e.symm),
                    getD_set_ne _ _ _ _
                      (by rw [← sargc]; exact fun e => hje e.symm)]
                  exact sargv j
                    (Nat.lt_of_le_of_ne (Nat.le_of_lt_succ hj) hje) hjam
              · rw [if_neg hcap, if_neg (by rw [← sargc]; exact hcap)]
                have hja : j < (runTo AM B1 A1 k).argc :=
                  Nat.lt_of_lt_of_le hjam (Nat.le_of_not_lt hcap)
                exact sargv j hja hjam
            by_cases hqc : B1.getD k 0 = 39 ∨ B1.getD k 0 = 34
            · rw [argStep_tok_open_new AM _ k hq0 hs1 hlw (by rw [e1]; exact hqc),
                argStep_tok_open_new AM _ k hq02 hs2 hlw2
                  (by rw [e2, ← eq12]; exact hqc)]
              exact ⟨by rw [sargc], sdest, by rw [e1, e2, eq12], rfl, swrites,
                fun j hj hjam => hargveq j (by rw [sargc] at hj; rw [sargc]; exact hj) hjam, sbuf⟩
            · rw [argStep_tok_copy_new AM _ k hq0 hs1 hlw (by rw [e1]; exact hqc),
                argStep_tok_copy_new AM _ k hq02 hs2 hlw2
                  (by rw [e2, ← eq12]; exact hqc)]
              exact ⟨by rw [sargc], by rw [sdest], squote, rfl,
                by rw [swrites, sdest],
                fun j hj hjam => hargveq j hj hjam,
                bufstep _ _ eread⟩
          · have hlf : (runTo AM B1 A1 k).lastWasSpace = false :=
              Bool.eq_false_iff.mpr hlw
            have hlf2 : (runTo AM B2 A2 k).lastWasSpace = false := by
              rw [← slws]; exact hlf
            by_cases hqc : B1.getD k 0 = 39 ∨ B1.getD k 0 = 34
            · rw [argStep_tok_open_old AM _ k hq0 hs1 hlf (by rw [e1]; exact hqc),
                argStep_tok_open_old AM _ k hq02 hs2 hlf2
                  (by rw [e2, ← eq12]; exact hqc)]
              exact ⟨sargc, sdest, by rw [e1, e2, eq12], rfl, swrites, sargv,
                sbuf⟩
            · rw [argStep_tok_copy_old AM _ k hq0 hs1 hlf (by rw [e1]; exact hqc),
                argStep_tok_copy_old AM _ k hq02 hs2 hlf2
                  (by rw [e2, ← eq12]; exact hqc)]
              exact ⟨sargc, by rw [sdest], squote, rfl, by rw [swrites, sdest],
                sargv, bufstep _ _ eread⟩
      · have hq02 : (runTo AM B2 A2 k).quote ≠ 0 := by rw [← squote]; exact hq0
        by_cases hc : (runTo AM B1 A1 k).buffer.getD k 0 =
            (runTo AM B1 A1 k).quote
        · rw [argStep_quote_close AM _ k hq0 hc,
            argStep_quote_close AM _ k hq02
              (by rw [← eread, ← squote]; exact hc)]
          exact ⟨sargc, sdest, rfl, rfl, swrites, sargv, sbuf⟩
        · rw [argStep_quote_copy AM _ k hq0 hc,
            argStep_quote_copy AM _ k hq02
              (by rw [← eread, ← squote]; exact hc)]
          exact ⟨sargc, by rw [sdest], squote, rfl, by rw [swrites, sdest],
            sargv, bufstep _ _ eread⟩

/-! ### Feeding infrastructure -/

theorem feedAll_acc (BL AM : Nat) : ∀ (L : List Nat) (st : Esh)
    (acc : List Event),
    L.foldl (fun p c => ((esh_rx BL AM p.1 c).1, p.2 ++ (esh_rx BL AM p.1 c).2))
      (st, acc) =
    ((feedAll BL AM st L).1, acc ++ (feedAll BL AM st L).2)
  | [], st, acc => by simp [feedAll]
  | c :: t, st, acc => by
      show List.foldl _ ((esh_rx BL AM st c).1, acc ++ (esh_rx BL AM st c).2) t
        = _
      rw [feedAll_acc BL AM t (esh_rx BL AM st c).1]
      show _ = ((feedAll BL AM st (c :: t)).1, acc ++ (feedAll BL AM st (c :: t)).2)
      have hc : feedAll BL AM st (c :: t) =
          ((feedAll BL AM (esh_rx BL AM st c).1 t).1,
           (esh_rx BL AM st c).2 ++ (feedAll BL AM (esh_rx BL AM st c).1 t).2) := by
        show List.foldl _ ((esh_rx BL AM st c).1, [] ++ (esh_rx BL AM st c).2) t = _
        rw [feedAll_acc BL AM t (esh_rx BL AM st c).1]
        simp
      rw [hc]
      simp

theorem feedAll_cons (BL AM : Nat) (st : Esh) (c : Nat) (t : List Nat) :
    feedAll BL AM st (c :: t) =
      ((feedAll BL AM (esh_rx BL AM st c).1 t).1,
       (esh_rx BL AM st c).2 ++ (feedAll BL AM (esh_rx BL AM st c).1 t).2) := by
  show List.foldl _ ((esh_rx BL AM st c).1, [] ++ (esh_rx BL AM st c).2) t = _
  rw [feedAll_acc BL AM t (esh_rx BL AM st c).1]
  simp

theorem feedAll_append (BL AM : Nat) (st : Esh) (L1 L2 : List Nat) :
    feedAll BL AM st (L1 ++ L2) =
      ((feedAll BL AM (feedAll BL AM st L1).1 L2).1,
       (feedAll BL AM st L1).2 ++ (feedAll BL AM (feedAll BL AM st L1).1 L2).2) := by
  show List.foldl _ (st, []) (L1 ++ L2) = _
  rw [List.foldl_append]
  show List.foldl _ ((feedAll BL AM st L1).1, (feedAll BL AM st L1).2) _ = _
  rw [feedAll_acc]

theorem storeList_length : ∀ (L : List Nat) (b : List Nat) (k : Nat),
    (storeList b k L).length = b.length
  | [], _, _ => rfl
  | c :: t, b, k => by
      show (storeList (b.set k c) (k + 1) t).length = b.length
      rw [storeList_length t (b.set k c) (k + 1), List.length_set]

theorem storeList_getD_below : ∀ (L : List Nat) (b : List Nat) (k j : Nat),
    j < k → (storeList b k L).getD j 0 = b.getD j 0
  | [], _, _, _, _ => rfl
  | c :: t, b, k, j, h => by
      show (storeList (b.set k c) (k + 1) t).getD j 0 = b.getD j 0
      rw [storeList_getD_below t (b.set k c) (k + 1) j (by omega)]
      exact getD_set_ne b k j c (by omega)

theorem storeList_getD_hi : ∀ (L : List Nat) (b : List Nat) (k j : Nat),
    k + L.length ≤ j → (storeList b k L).getD j 0 = b.getD j 0
  | [], _, _, _, _ => rfl
  | c :: t, b, k, j, h => by
      have h1 : k + 1 + t.length ≤ j := by
        simp only [List.length_cons] at h
        omega
      show (storeList (b.set k c) (k + 1) t).getD j 0 = b.getD j 0
      rw [storeList_getD_hi t (b.set k c) (k + 1) j h1]
      exact getD_set_ne b k j c (by omega)

theorem storeList_getD_lo : ∀ (L : List Nat) (b : List Nat) (k j : Nat),
    j < L.length → k + L.length ≤ b.length →
    (storeList b k L).getD (k + j) 0 = L.getD j 0
  | [], _, _, j, hj, _ => by simp at hj
  | c :: t, b, k, 0, _, hb => by
      have hk : k < b.length := by
        simp only [List.length_cons] at hb
        omega
      show (storeList (b.set k c) (k + 1) t).getD (k + 0) 0 = c
      rw [storeList_getD_below t (b.set k c) (k + 1) (k + 0) (by omega)]
      simpa using getD_set_self b k c hk
  | c :: t, b, k, j + 1, hj, hb => by
      have hj1 : j < t.length := by
        simp only [List.length_cons] at hj
        omega
      have hb1 : k + 1 + t.length ≤ (b.set k c).length := by
        rw [List.length_set]
        simp only [List.length_cons] at hb
        omega
      show (storeList (b.set k c) (k + 1) t).getD (k + (j + 1)) 0 =
        t.getD j 0
      have h1 : k + (j + 1) = (k + 1) + j := by omega
      rw [h1]
      exact storeList_getD_lo t (b.set k c) (k + 1) j hj1 hb1

/-- Feeding a run of plain bytes (no NUL, backspace, newline or ESC)
into a state with the escape flags clear and room left in the buffer
just echoes and stores them. -/
theorem feed_plain (BL AM : Nat) : ∀ (L : List Nat) (st : Esh),
    st.flagIE = false → st.flagIBE = false →
    (∀ c ∈ L, c ≠ 0 ∧ c ≠ 8 ∧ c ≠ 10 ∧ c ≠ 27 ∧ c ≠ 127) →
    st.cnt + L.length ≤ BL →
    feedAll BL AM st L =
      ({ st with buffer := storeList st.buffer st.cnt L,
                 cnt := st.cnt + L.length },
       L.map Event.echo)
  | [], st, _, _, _, _ => by simp [feedAll, storeList]
  | c :: t, st, hIE, hIBE, hL, hfit => by
      obtain ⟨hc0, hc8, hc10, hc27, hc127⟩ := hL c (List.mem_cons_self c t)
      have hbk : ¬ (c = 8 ∨ c = 127) := by
        intro h; rcases h with h | h
        · exact hc8 h
        · exact hc127 h
      have hcntlt : st.cnt < BL := by
        have := hfit; simp at this; omega
      have hstep : esh_rx BL AM st c =
          ({ st with buffer := st.buffer.set st.cnt c, cnt := st.cnt + 1 },
           [Event.echo c]) := by
        have hov : ¬ (st.cnt > BL ∨ (st.cnt = BL ∧ ¬ (c = 8 ∨ c = 127))) := by
          intro h
          rcases h with h | ⟨h, _⟩
          · omega
          · omega
        show (if st.flagIBE = true then _ else _) = _
        rw [if_neg (by rw [hIBE]; simp), if_neg (by rw [hIE]; simp),
          if_neg hc0, if_neg hc27, if_neg hc10]
        show handle_char BL st c = _
        simp only [handle_char]
        rw [if_neg hov, if_neg hbk]
      rw [feedAll_cons, hstep]
      have ht := feed_plain BL AM t
        { st with buffer := st.buffer.set st.cnt c, cnt := st.cnt + 1 }
        hIE hIBE (fun x hx => hL x (List.mem_cons_of_mem c hx))
        (by simp at hfit ⊢; omega)
      rw [ht]
      show (_, _) = (_, _)
      refine congrArg₂ Prod.mk ?_ ?_
      · show ({ st with
            buffer := storeList (st.buffer.set st.cnt c) (st.cnt + 1) t,
            cnt := st.cnt + 1 + t.length } : Esh) = _
        have : st.cnt + 1 + t.length = st.cnt + (c :: t).length := by
          simp; omega
        rw [this]
        rfl
      · simp

/-! ### Concrete test vectors from the spec -/

/-- The bytes of the literal `git   config user.name "My Name"`
(32 bytes, three spaces between `git` and `config`). -/
def gitLine : List Nat :=
  [103, 105, 116, 32, 32, 32, 99, 111, 110, 102, 105, 103, 32, 117, 115,
   101, 114, 46, 110, 97, 109, 101, 32, 34, 77, 121, 32, 78, 97, 109,
   101, 34]

/-- The `git` example line placed in a buffer of capacity 40. -/
def gitBuf : List Nat := gitLine ++ List.replicate 9 0

/-- The four tokens the `git` example should produce. -/
def gitTokens : List (List Nat) :=
  [[103, 105, 116], [99, 111, 110, 102, 105, 103],
   [117, 115, 101, 114, 46, 110, 97, 109, 101],
   [77, 121, 32, 78, 97, 109, 101]]

/-- What the code actually leaves in the buffer for the `git` example:
one NUL per whitespace byte, so three NULs after `git`
(`git\x00\x00\x00config\x00user.name\x00My Name\x00`). -/
def gitRewritten : List Nat :=
  [103, 105, 116, 0, 0, 0, 99, 111, 110, 102, 105, 103, 0, 117, 115, 101,
   114, 46, 110, 97, 109, 101, 0, 77, 121, 32, 78, 97, 109, 101, 0]

/-- The buffer contents the claim asserts for the `git` example: single
NUL separators (`git\x00config\x00user.name\x00My Name\x00`). -/
def gitClaimedBuffer : List Nat :=
  [103, 105, 116, 0, 99, 111, 110, 102, 105, 103, 0, 117, 115, 101, 114,
   46, 110, 97, 109, 101, 0, 77, 121, 32, 78, 97, 109, 101, 0]

/-- The bytes of the literal `why" would you ever"'"'"do this??"`
(34 bytes). -/
def whyLine : List Nat :=
  [119, 104, 121, 34, 32, 119, 111, 117, 108, 100, 32, 121, 111, 117, 32,
   101, 118, 101, 114, 34, 39, 34, 39, 34, 100, 111, 32, 116, 104, 105,
   115, 63, 63, 34]

/-- The `why` example line placed in a buffer of capacity 40. -/
def whyBuf : List Nat := whyLine ++ List.replicate 7 0

/-- The single token the `why` example should produce:
`why would you ever"do this??`. -/
def whyToken : List Nat :=
  [119, 104, 121, 32, 119, 111, 117, 108, 100, 32, 121, 111, 117, 32,
   101, 118, 101, 114, 34, 100, 111, 32, 116, 104, 105, 115, 63, 63]

set_option maxRecDepth 10000

/-- C3 (counterexample): tokenizing the `git` example does not leave the
single-NUL byte sequence the claim asserts — the rewritten buffer
differs from it (the code writes one NUL per whitespace byte, so the
three spaces produce three NULs). -/
theorem C3_counterexample :
    (make_arg_array 40 10 gitBuf (List.replicate 10 0) 32).buffer.take 29 ≠
      gitClaimedBuffer := by decide

/-- C3 (amended): tokenizing the `git` example returns argc 4, records
argv indices 0, 6, 13, 23, whose NUL-terminated strings are `git`,
`config`, `user.name`, `My Name`, and leaves the buffer holding
`git\x00\x00\x00config\x00user.name\x00My Name\x00` (one NUL per
whitespace byte) with the defensive terminator in place. -/
theorem C3_tokenize :
    (make_arg_array 40 10 gitBuf (List.replicate 10 0) 32).argc = 4 ∧
    (make_arg_array 40 10 gitBuf (List.replicate 10 0) 32).argv.take 4 =
      [0, 6, 13, 23] ∧
    ((make_arg_array 40 10 gitBuf (List.replicate 10 0) 32).argv.take 4).map
      (cstr (make_arg_array 40 10 gitBuf (List.replicate 10 0) 32).buffer) =
      gitTokens ∧
    (make_arg_array 40 10 gitBuf (List.replicate 10 0) 32).buffer.take 31 =
      gitRewritten ∧
    (make_arg_array 40 10 gitBuf (List.replicate 10 0) 32).buffer.getD 40 0 =
      0 := by decide

/-- C6: tokenizing the `why` example returns argc 1 with the single
token `why would you ever"do this??` recorded at index 0 of the
rewritten buffer and NUL-terminated there. -/
theorem C6_tokenize :
    (make_arg_array 40 10 whyBuf (List.replicate 10 0) 34).argc = 1 ∧
    (make_arg_array 40 10 whyBuf (List.replicate 10 0) 34).argv.getD 0 0 =
      0 ∧
    cstr (make_arg_array 40 10 whyBuf (List.replicate 10 0) 34).buffer 0 =
      whyToken ∧
    (make_arg_array 40 10 whyBuf (List.replicate 10 0) 34).buffer.getD 28 0 =
      0 := by decide

/-- C2 (code evaluated at the failing input): with capacity 8 and argc
cap 4, feed the line `xxxxxx`, then the line `"a" b` (with `a` quoted).
The second token `b` is rewritten to buffer index 2, yet the code
records the raw read index 4 in argv, so the callback reads the stale
bytes `bx` instead of the token `b` — the recorded entry is not the
write position the claim requires. -/
theorem C2_stale_pointer :
    (feedAll 8 4 (esh_init 8 4)
      [120, 120, 120, 120, 120, 120, 10, 34, 97, 34, 32, 98, 10]).1.argv.getD
        1 0 = 4 ∧
    cstr (feedAll 8 4 (esh_init 8 4)
      [120, 120, 120, 120, 120, 120, 10, 34, 97, 34, 32, 98, 10]).1.buffer 4 =
      [98, 120] ∧
    cstr (feedAll 8 4 (esh_init 8 4)
      [120, 120, 120, 120, 120, 120, 10, 34, 97, 34, 32, 98, 10]).1.buffer 2 =
      [98] ∧
    Event.callback 2 [0, 4] [[97], [98, 120]] ∈
      (feedAll 8 4 (esh_init 8 4)
        [120, 120, 120, 120, 120, 120, 10, 34, 97, 34, 32, 98, 10]).2 := by
  decide

/-- C4 (counterexample): with capacity 3 and argc cap 2, feeding three
spaces, an overflowing byte and a newline reaches tokenization with
count = BUFFER_LEN + 1; the populated argv entry is the index 3 =
BUFFER_LEN (the forced NUL slot), not strictly below BUFFER_LEN as the
claim asserts. -/
theorem C4_counterexample :
    (feedAll 3 2 (esh_init 3 2) [32, 32, 32, 120, 10]).1.argv.getD 0 0 = 3 ∧
    ¬ ((feedAll 3 2 (esh_init 3 2) [32, 32, 32, 120, 10]).1.argv.getD 0 0 <
        3) := by decide

/-- C10: with capacity 3 and argc cap 2, feeding three ordinary bytes
and one overflowing byte puts the state at count = BUFFER_LEN + 1 with
no quote characters in the buffer; the tokenizer then performs its
final-terminator store at index 4 = BUFFER_LEN + 1, one past the
declared BUFFER_LEN + 1-byte array. -/
theorem C10_oob_store :
    (feedAll 3 2 (esh_init 3 2) [97, 97, 97, 120]).1.cnt = 3 + 1 ∧
    (make_arg_array 3 2
      (feedAll 3 2 (esh_init 3 2) [97, 97, 97, 120]).1.buffer
      (feedAll 3 2 (esh_init 3 2) [97, 97, 97, 120]).1.argv
      (feedAll 3 2 (esh_init 3 2) [97, 97, 97, 120]).1.cnt).writes =
      [0, 1, 2, 3, 4, 3] ∧
    3 + 1 ∈ (make_arg_array 3 2
      (feedAll 3 2 (esh_init 3 2) [97, 97, 97, 120]).1.buffer
      (feedAll 3 2 (esh_init 3 2) [97, 97, 97, 120]).1.argv
      (feedAll 3 2 (esh_init 3 2) [97, 97, 97, 120]).1.cnt).writes := by
  decide

/-! ### Escape filter, backspace and input overflow -/

/-- Auxiliary: a list whose first `m` entries are nonzero and whose
`m`-th entry is zero has a NUL-terminated prefix of length exactly `m`. -/
theorem takeWhile_nz_length : ∀ (b : List Nat) (m : Nat),
    (∀ j, j < m → b.getD j 0 ≠ 0) → b.getD m 0 = 0 →
    (b.takeWhile (fun x => !(x == 0))).length = m
  | [], m, hnz, _ => by
      cases m with
      | zero => rfl
      | succ k => exact absurd rfl (hnz 0 (Nat.succ_pos k))
  | x :: t, 0, _, h0 => by
      have hx : x = 0 := h0
      subst hx
      rfl
  | x :: t, m + 1, hnz, h0 => by
      have hx : x ≠ 0 := hnz 0 (Nat.succ_pos m)
      have hcons : (x :: t).takeWhile (fun y => !(y == 0)) =
          x :: t.takeWhile (fun y => !(y == 0)) := by
        simp [List.takeWhile_cons, hx]
      rw [hcons, List.length_cons,
        takeWhile_nz_length t m (fun j hj => hnz (j + 1) (by omega))
          (by simpa using h0)]

/-- C7: from any state with neither escape flag set, the cursor-up
sequence ESC, `[`, `A` fed byte-by-byte leaves the whole state (buffer,
count, flags) unchanged and emits no output; and ESC followed by any
byte other than `[` or `O` likewise consumes both bytes, emits nothing
and returns the flags to the no-escape state. -/
theorem C7_escape_filter (BL AM : Nat) (st : Esh)
    (hIE : st.flagIE = false) (hIBE : st.flagIBE = false) :
    feedAll BL AM st [27, 91, 65] = (st, []) ∧
    ∀ c, c ≠ 91 → c ≠ 79 → feedAll BL AM st [27, c] = (st, []) := by
  obtain ⟨b, n, a, f1, f2⟩ := st
  simp only at hIE hIBE
  subst hIE
  subst hIBE
  refine ⟨rfl, ?_⟩
  intro c h91 h79
  rw [feedAll_cons]
  have e1 : esh_rx BL AM (Esh.mk b n a false false) 27 =
      (Esh.mk b n a true false, []) := rfl
  rw [e1, feedAll_cons]
  have e2 : esh_rx BL AM (Esh.mk b n a true false) c =
      (Esh.mk b n a false false, []) := by
    show (if (Esh.mk b n a true false).flagIBE = true then _ else _) = _
    rw [if_neg (Bool.false_ne_true : ¬ (Esh.mk b n a true
        false).flagIBE = true),
      if_pos (rfl : (Esh.mk b n a true false).flagIE = true),
      if_neg (fun h => h.elim (fun e => h91 e) (fun e => h79 e))]
  rw [e2]
  rfl

/-- C7 witness: a concrete instantiation of the escape-filter claim. -/
theorem C7_escape_filter_witness :
    ((Esh.mk [0, 0, 0] 1 [0, 0] false false).flagIE = false ∧
     (Esh.mk [0, 0, 0] 1 [0, 0] false false).flagIBE = false) ∧
    feedAll 2 2 (Esh.mk [0, 0, 0] 1 [0, 0] false false) [27, 91, 65] =
      (Esh.mk [0, 0, 0] 1 [0, 0] false false, []) ∧
    feedAll 2 2 (Esh.mk [0, 0, 0] 1 [0, 0] false false) [27, 120] =
      (Esh.mk [0, 0, 0] 1 [0, 0] false false, []) :=
  ⟨⟨rfl, rfl⟩,
   (C7_escape_filter 2 2 _ rfl rfl).1,
   (C7_escape_filter 2 2 _ rfl rfl).2 120 (by decide) (by decide)⟩

/-- C8: backspace (byte 8 or 127) with neither escape flag set: a no-op
at count 0; at 0 < count ≤ BUFFER_LEN it emits the fixed 3-byte erase
sequence and decrements count by exactly one (no overflow handler); at
count = BUFFER_LEN + 1 it does not decrement count. -/
theorem C8_backspace (BL AM : Nat) (st : Esh) (c : Nat)
    (hIE : st.flagIE = false) (hIBE : st.flagIBE = false)
    (hbk : c = 8 ∨ c = 127) :
    (st.cnt = 0 → esh_rx BL AM st c = (st, [])) ∧
    (0 < st.cnt → st.cnt ≤ BL →
      esh_rx BL AM st c =
        ({ st with cnt := st.cnt - 1 }, [Event.prints [8, 32, 8]])) ∧
    (st.cnt = BL + 1 → (esh_rx BL AM st c).1.cnt = BL + 1) := by
  have hc0 : c ≠ 0 := by rcases hbk with rfl | rfl <;> decide
  have hc27 : c ≠ 27 := by rcases hbk with rfl | rfl <;> decide
  have hc10 : c ≠ 10 := by rcases hbk with rfl | rfl <;> decide
  have hstep : esh_rx BL AM st c = handle_char BL st c := by
    show (if st.flagIBE = true then _ else _) = _
    rw [if_neg (by rw [hIBE]; simp), if_neg (by rw [hIE]; simp),
      if_neg hc0, if_neg hc27, if_neg hc10]
  refine ⟨?_, ?_, ?_⟩
  · intro h0
    rw [hstep]
    have hov : ¬ (st.cnt > BL ∨ (st.cnt = BL ∧ ¬ (c = 8 ∨ c = 127))) := by
      intro h
      rcases h with h | ⟨_, h2⟩
      · omega
      · exact h2 hbk
    simp only [handle_char]
    rw [if_neg hov, if_pos hbk, if_neg (by omega)]
  · intro hpos hle
    rw [hstep]
    have hov : ¬ (st.cnt > BL ∨ (st.cnt = BL ∧ ¬ (c = 8 ∨ c = 127))) := by
      intro h
      rcases h with h | ⟨_, h2⟩
      · omega
      · exact h2 hbk
    simp only [handle_char]
    rw [if_neg hov, if_pos hbk, if_pos (by omega)]
  · intro hsent
    rw [hstep]
    simp only [handle_char]
    rw [if_pos (Or.inl (by omega))]

/-- C8 witness: concrete instantiations of the backspace claim at
counts 0, 2 and BUFFER_LEN + 1 with BUFFER_LEN = 2. -/
theorem C8_backspace_witness :
    ((8 : Nat) = 8 ∨ (8 : Nat) = 127) ∧
    esh_rx 2 2 (Esh.mk [97, 98, 0] 0 [0, 0] false false) 8 =
      (Esh.mk [97, 98, 0] 0 [0, 0] false false, []) ∧
    esh_rx 2 2 (Esh.mk [97, 98, 0] 2 [0, 0] false false) 8 =
      (Esh.mk [97, 98, 0] 1 [0, 0] false false,
       [Event.prints [8, 32, 8]]) ∧
    (esh_rx 2 2 (Esh.mk [97, 98, 0] 3 [0, 0] false false) 8).1.cnt = 3 :=
  ⟨Or.inl rfl,
   (C8_backspace 2 2 _ 8 rfl rfl (Or.inl rfl)).1 rfl,
   by
     have h := (C8_backspace 2 2 (Esh.mk [97, 98, 0] 2 [0, 0] false false)
       8 rfl rfl (Or.inl rfl)).2.1 (by decide) (by decide)
     rw [h]
     rfl,
   (C8_backspace 2 2 _ 8 rfl rfl (Or.inl rfl)).2.2 rfl⟩

/-- C5: with neither escape flag set and a buffer whose first BUFFER_LEN
bytes are nonzero, an ordinary byte (not NUL, backspace, newline or ESC)
arriving at count = BUFFER_LEN invokes the overflow handler exactly once
with the NUL-terminated buffer of length BUFFER_LEN, sets count to
BUFFER_LEN + 1 and neither stores nor echoes the byte; at count =
BUFFER_LEN + 1 a further such byte leaves count at BUFFER_LEN + 1 and
the first BUFFER_LEN bytes untouched. -/
theorem C5_input_overflow (BL AM : Nat) (st : Esh) (c : Nat)
    (hIE : st.flagIE = false) (hIBE : st.flagIBE = false)
    (hc : c ≠ 0 ∧ c ≠ 8 ∧ c ≠ 10 ∧ c ≠ 27 ∧ c ≠ 127)
    (hblen : st.buffer.length = BL + 1)
    (hnz : ∀ j, j < BL → st.buffer.getD j 0 ≠ 0) :
    (st.cnt = BL →
      esh_rx BL AM st c =
        ({ st with cnt := BL + 1, buffer := st.buffer.set BL 0 },
         [Event.overflow (st.buffer.set BL 0)]) ∧
      (cstr (st.buffer.set BL 0) 0).length = BL) ∧
    (st.cnt = BL + 1 →
      esh_rx BL AM st c =
        ({ st with cnt := BL + 1, buffer := st.buffer.set BL 0 },
         [Event.overflow (st.buffer.set BL 0)]) ∧
      (∀ j, j < BL →
        (st.buffer.set BL 0).getD j 0 = st.buffer.getD j 0)) := by
  obtain ⟨hc0, hc8, hc10, hc27, hc127⟩ := hc
  have hbk : ¬ (c = 8 ∨ c = 127) := by
    intro h
    rcases h with h | h
    · exact hc8 h
    · exact hc127 h
  have hstep : esh_rx BL AM st c = handle_char BL st c := by
    show (if st.flagIBE = true then _ else _) = _
    rw [if_neg (by rw [hIBE]; simp), if_neg (by rw [hIE]; simp),
      if_neg hc0, if_neg hc27, if_neg hc10]
  have hlenstr : (cstr (st.buffer.set BL 0) 0).length = BL := by
    show ((st.buffer.set BL 0).takeWhile (fun x => !(x == 0))).length = BL
    refine takeWhile_nz_length (st.buffer.set BL 0) BL ?_ ?_
    · intro j hj
      rw [getD_set_ne _ _ _ _ (by omega)]
      exact hnz j hj
    · exact getD_set_self st.buffer BL 0 (by omega)
  refine ⟨?_, ?_⟩
  · intro hcnt
    refine ⟨?_, hlenstr⟩
    rw [hstep]
    simp only [handle_char]
    rw [if_pos (Or.inr ⟨hcnt, hbk⟩)]
  · intro hcnt
    refine ⟨?_, ?_⟩
    · rw [hstep]
      simp only [handle_char]
      rw [if_pos (Or.inl (by omega))]
    · intro j hj
      exact getD_set_ne _ _ _ _ (by omega)

/-- C5 witness: a concrete instantiation at BUFFER_LEN = 2 with buffer
`ab`, count 2, incoming byte `x`, and the follow-up byte in the
overflow state. -/
theorem C5_input_overflow_witness :
    ((120 : Nat) ≠ 0 ∧ (120 : Nat) ≠ 8 ∧ (120 : Nat) ≠ 10 ∧
     (120 : Nat) ≠ 27 ∧ (120 : Nat) ≠ 127) ∧
    esh_rx 2 2 (Esh.mk [97, 98, 0] 2 [0, 0] false false) 120 =
      (Esh.mk [97, 98, 0] 3 [0, 0] false false,
       [Event.overflow [97, 98, 0]]) ∧
    (cstr [97, 98, 0] 0).length = 2 ∧
    esh_rx 2 2 (Esh.mk [97, 98, 0] 3 [0, 0] false false) 121 =
      (Esh.mk [97, 98, 0] 3 [0, 0] false false,
       [Event.overflow [97, 98, 0]]) := by
  have h1 := (C5_input_overflow 2 2 (Esh.mk [97, 98, 0] 2 [0, 0] false
    false) 120 rfl rfl (by decide) (by decide) (by decide)).1 rfl
  have h2 := (C5_input_overflow 2 2 (Esh.mk [97, 98, 0] 3 [0, 0] false
    false) 121 rfl rfl (by decide) (by decide) (by decide)).2 rfl
  refine ⟨by decide, ?_, ?_, ?_⟩
  · rw [h1.1]
    rfl
  · have := h1.2
    simpa using this
  · rw [h2.1]
    rfl

/-! ### Dispatch and the state invariant -/

/-- Auxiliary: every entry of a zero-replicate list reads as zero. -/
theorem getD_replicate_zero : ∀ (n j : Nat),
    (List.replicate n (0 : Nat)).getD j 0 = 0
  | 0, _ => rfl
  | _ + 1, 0 => rfl
  | n + 1, j + 1 => by simp only [List.replicate, List.getD_cons_succ]; exact getD_replicate_zero n j

/-- C1: on newline with neither escape flag set, the tokenizer runs;
if argc exceeds ARGC_MAX the overflow handler receives the rewritten
buffer and no callback runs, if 0 < argc ≤ ARGC_MAX the callback
receives (argc, argv), if argc = 0 neither runs; count is reset to 0
and the prompt is printed; the returned argc is the true (uncapped)
token count, and argv entries at or beyond ARGC_MAX are never written. -/
theorem C1_dispatch (BL AM : Nat) (st : Esh)
    (hIE : st.flagIE = false) (hIBE : st.flagIBE = false) :
    esh_rx BL AM st 10 =
      ({ st with
          buffer := (make_arg_array BL AM st.buffer st.argv st.cnt).buffer,
          argv := (make_arg_array BL AM st.buffer st.argv st.cnt).argv,
          cnt := 0 },
       Event.echo 10 ::
         ((if AM < (make_arg_array BL AM st.buffer st.argv st.cnt).argc then
             [Event.overflow
               (make_arg_array BL AM st.buffer st.argv st.cnt).buffer]
           else if 0 < (make_arg_array BL AM st.buffer st.argv st.cnt).argc
           then
             [Event.callback
               (make_arg_array BL AM st.buffer st.argv st.cnt).argc
               ((make_arg_array BL AM st.buffer st.argv st.cnt).argv.take
                 (min (make_arg_array BL AM st.buffer st.argv st.cnt).argc
                   AM))
               (((make_arg_array BL AM st.buffer st.argv st.cnt).argv.take
                 (min (make_arg_array BL AM st.buffer st.argv st.cnt).argc
                   AM)).map
                 (cstr (make_arg_array BL AM st.buffer st.argv
                   st.cnt).buffer))]
           else []) ++ [Event.prompt])) ∧
    (make_arg_array BL AM st.buffer st.argv st.cnt).argc =
      specTokCount st.buffer st.cnt ∧
    (∀ j, AM ≤ j →
      (make_arg_array BL AM st.buffer st.argv st.cnt).argv.getD j 0 =
        st.argv.getD j 0) := by
  refine ⟨?_, make_arg_array_argc BL AM st.buffer st.argv st.cnt,
    make_arg_array_argv_hi BL AM st.buffer st.argv st.cnt⟩
  have hstep : esh_rx BL AM st 10 =
      ((execute_command BL AM st).1,
       Event.echo 10 :: (execute_command BL AM st).2) := by
    show (if st.flagIBE = true then _ else _) = _
    rw [if_neg (by rw [hIBE]; simp), if_neg (by rw [hIE]; simp),
      if_neg (by decide : ¬ (10 : Nat) = 0),
      if_neg (by decide : ¬ (10 : Nat) = 27),
      if_pos (rfl : (10 : Nat) = 10)]
  rw [hstep]
  rfl

/-- C1 witness: a concrete newline dispatch of the line `a b` with
BUFFER_LEN = 3, ARGC_MAX = 2. -/
theorem C1_dispatch_witness :
    ((Esh.mk [97, 32, 98, 0] 3 [0, 0] false false).flagIE = false ∧
     (Esh.mk [97, 32, 98, 0] 3 [0, 0] false false).flagIBE = false) ∧
    esh_rx 3 2 (Esh.mk [97, 32, 98, 0] 3 [0, 0] false false) 10 =
      (Esh.mk [97, 0, 98, 0] 0 [0, 2] false false,
       [Event.echo 10, Event.callback 2 [0, 2] [[97], [98]],
        Event.prompt]) := by
  refine ⟨⟨rfl, rfl⟩, ?_⟩
  rw [(C1_dispatch 3 2 (Esh.mk [97, 32, 98, 0] 3 [0, 0] false false) rfl
    rfl).1]
  decide

/-- The reachable-state invariant of the shell context: count stays at
most BUFFER_LEN + 1, the array extents are fixed, and every argv entry
is an index at most BUFFER_LEN (so within the declared
BUFFER_LEN + 1-byte buffer). -/
def EshInv (BL AM : Nat) (st : Esh) : Prop :=
  st.cnt ≤ BL + 1 ∧ st.buffer.length = BL + 1 ∧ st.argv.length = AM ∧
  ∀ j, j < AM → st.argv.getD j 0 ≤ BL

/-- C4 (amended): the invariant holds initially and is preserved by
every received byte: count never exceeds BUFFER_LEN + 1 and populated
argv entries are indices at most BUFFER_LEN (index BUFFER_LEN itself is
reachable after an input overflow, so "strictly below BUFFER_LEN" had
to be weakened to "at most BUFFER_LEN"). -/
theorem C4_invariant (BL AM : Nat) :
    EshInv BL AM (esh_init BL AM) ∧
    ∀ st c, EshInv BL AM st → EshInv BL AM (esh_rx BL AM st c).1 := by
  constructor
  · refine ⟨Nat.zero_le _, by simp [esh_init], by simp [esh_init], ?_⟩
    intro j _
    show (List.replicate AM 0).getD j 0 ≤ BL
    rw [getD_replicate_zero]
    exact Nat.zero_le BL
  · intro st c hInv
    obtain ⟨h1, h2, h3, h4⟩ := hInv
    simp only [esh_rx]
    split_ifs with hA hB hC hD hE hF hG
    · exact ⟨h1, h2, h3, h4⟩
    · exact ⟨h1, h2, h3, h4⟩
    · exact ⟨h1, h2, h3, h4⟩
    · exact ⟨h1, h2, h3, h4⟩
    · exact ⟨h1, h2, h3, h4⟩
    · exact ⟨h1, h2, h3, h4⟩
    · -- newline: execute_command
      refine ⟨Nat.zero_le _, ?_, ?_, ?_⟩
      · show (make_arg_array BL AM st.buffer st.argv st.cnt).buffer.length =
          BL + 1
        rw [make_arg_array_buffer_len]
        exact h2
      · show (make_arg_array BL AM st.buffer st.argv st.cnt).argv.length =
          AM
        rw [make_arg_array_argv_len]
        exact h3
      · intro j hj
        show (make_arg_array BL AM st.buffer st.argv st.cnt).argv.getD j 0 ≤
          BL
        rcases make_arg_array_argv_lo BL AM st.buffer st.argv st.cnt j with
          h | h
        · rw [h]
          exact h4 j hj
        · omega
    · -- ordinary byte: handle_char
      simp only [handle_char]
      split_ifs with hH hI hJ
      · exact ⟨Nat.le_refl _, by rw [List.length_set]; exact h2, h3, h4⟩
      · refine ⟨?_, h2, h3, h4⟩
        show st.cnt - 1 ≤ BL + 1
        omega
      · exact ⟨h1, h2, h3, h4⟩
      · refine ⟨?_, by rw [List.length_set]; exact h2, h3, h4⟩
        show st.cnt + 1 ≤ BL + 1
        omega

/-- C4 witness: the invariant at the initial state and after one
received byte, with BUFFER_LEN = 2, ARGC_MAX = 1. -/
theorem C4_invariant_witness :
    EshInv 2 1 (esh_init 2 1) ∧
    EshInv 2 1 (esh_rx 2 1 (esh_init 2 1) 97).1 :=
  ⟨(C4_invariant 2 1).1,
   (C4_invariant 2 1).2 (esh_init 2 1) 97 (C4_invariant 2 1).1⟩

/-- `esh_rx` on a newline with the escape flags clear echoes the newline
and runs `execute_command`. -/
theorem esh_rx_newline (BL AM : Nat) (st : Esh)
    (hIE : st.flagIE = false) (hIBE : st.flagIBE = false) :
    esh_rx BL AM st 10 =
      ((execute_command BL AM st).1,
       Event.echo 10 :: (execute_command BL AM st).2) := by
  show (if st.flagIBE = true then _ else _) = _
  rw [if_neg (by rw [hIBE]; simp), if_neg (by rw [hIE]; simp),
    if_neg (by decide : ¬ (10 : Nat) = 0),
    if_neg (by decide : ¬ (10 : Nat) = 27),
    if_pos (rfl : (10 : Nat) = 10)]

/-- Crux of round-trip idempotence: two tokenizer runs over buffers that
agree on the scanned prefix, where the second buffer beyond the prefix
holds exactly the first run's rewritten bytes, produce the same argc,
the same rewritten buffer and the same dispatched argv prefix. -/
theorem exec_pieces_eq (BL AM n : Nat) (P1 A1 P2 A2 : List Nat)
    (hpre : ∀ j, j < n → P1.getD j 0 = P2.getD j 0)
    (hP1len : P1.length = BL + 1) (hP2len : P2.length = BL + 1)
    (hA1 : A1.length = AM) (hA2 : A2.length = AM)
    (_hn : n ≤ BL)
    (hP2suf : ∀ j, n ≤ j → j < BL + 1 →
      P2.getD j 0 = (make_arg_array BL AM P1 A1 n).buffer.getD j 0) :
    (make_arg_array BL AM P1 A1 n).argc =
      (make_arg_array BL AM P2 A2 n).argc ∧
    (make_arg_array BL AM P1 A1 n).buffer =
      (make_arg_array BL AM P2 A2 n).buffer ∧
    (make_arg_array BL AM P1 A1 n).argv.take
        (min (make_arg_array BL AM P1 A1 n).argc AM) =
      (make_arg_array BL AM P2 A2 n).argv.take
        (min (make_arg_array BL AM P2 A2 n).argc AM) := by
  obtain ⟨sargc, sdest, squote, slws, swrites, sargv, sbuf⟩ :=
    runTo_sim AM P1 P2 A1 A2 n hpre (by rw [hP1len, hP2len]) hA1 hA2 n
      (Nat.le_refl n)
  have u1 := runTo_inv AM P1 A1 n
  have u2 := runTo_inv AM P2 A2 n
  have hd1 : (runTo AM P1 A1 n).dest ≤ n := u1.2.2.2.1
  have hlen1 : (runTo AM P1 A1 n).buffer.length = P1.length := u1.2.2.2.2.1
  have hlen2 : (runTo AM P2 A2 n).buffer.length = P2.length := u2.2.2.2.2.1
  have hsuf1 : ∀ j, n ≤ j →
      (runTo AM P1 A1 n).buffer.getD j 0 = P1.getD j 0 := u1.2.2.2.2.2.1
  have hsuf2 : ∀ j, n ≤ j →
      (runTo AM P2 A2 n).buffer.getD j 0 = P2.getD j 0 := u2.2.2.2.2.2.1
  have halen1 : (runTo AM P1 A1 n).argv.length = A1.length :=
    u1.2.2.2.2.2.2.2.1
  have halen2 : (runTo AM P2 A2 n).argv.length = A2.length :=
    u2.2.2.2.2.2.2.2.1
  have hargc : (make_arg_array BL AM P1 A1 n).argc =
      (make_arg_array BL AM P2 A2 n).argc := sargc
  refine ⟨hargc, ?_, ?_⟩
  · -- the rewritten buffers coincide
    apply eq_of_getD
    · rw [make_arg_array_buffer_len, make_arg_array_buffer_len, hP1len,
        hP2len]
    · intro j hjl
      rw [make_arg_array_buffer_len, hP1len] at hjl
      show (((runTo AM P1 A1 n).buffer.set (runTo AM P1 A1 n).dest 0).set
          BL 0).getD j 0 =
        (((runTo AM P2 A2 n).buffer.set (runTo AM P2 A2 n).dest 0).set
          BL 0).getD j 0
      by_cases hjBL : BL = j
      · rw [← hjBL]
        rw [getD_set_self _ _ _ (by rw [List.length_set, hlen1, hP1len]; omega),
          getD_set_self _ _ _ (by rw [List.length_set, hlen2, hP2len]; omega)]
      · rw [getD_set_ne _ _ _ _ hjBL, getD_set_ne _ _ _ _ hjBL]
        by_cases hjd : (runTo AM P1 A1 n).dest = j
        · have hjd2 : (runTo AM P2 A2 n).dest = j := by
            rw [← sdest]; exact hjd
          rw [hjd, hjd2,
            getD_set_self _ _ _ (by rw [hlen1, hP1len]; exact hjl),
            getD_set_self _ _ _ (by rw [hlen2, hP2len]; exact hjl)]
        · have hjd2 : (runTo AM P2 A2 n).dest ≠ j := by
            rw [← sdest]; exact hjd
          rw [getD_set_ne _ _ _ _ hjd, getD_set_ne _ _ _ _ hjd2]
          rcases sbuf j with h | ⟨h1, h2⟩
          · exact h
          · rw [h1, h2]
            by_cases hjn : j < n
            · exact hpre j hjn
            · have hT1j : (make_arg_array BL AM P1 A1 n).buffer.getD j 0 =
                  P1.getD j 0 := by
                show (((runTo AM P1 A1 n).buffer.set
                    (runTo AM P1 A1 n).dest 0).set BL 0).getD j 0 = _
                rw [getD_set_ne _ _ _ _ hjBL, getD_set_ne _ _ _ _ hjd]
                exact hsuf1 j (by omega)
              have := hP2suf j (by omega) hjl
              rw [this, hT1j]
  · -- the dispatched argv prefixes coincide
    rw [← hargc]
    apply take_eq_of_getD
    · rw [make_arg_array_argv_len, hA1]
      exact Nat.min_le_right _ _
    · rw [make_arg_array_argv_len, hA2]
      exact Nat.min_le_right _ _
    · intro j hj
      have hj1 : j < (make_arg_array BL AM P1 A1 n).argc :=
        Nat.lt_of_lt_of_le hj (Nat.min_le_left _ _)
      have hj2 : j < AM := Nat.lt_of_lt_of_le hj (Nat.min_le_right _ _)
      exact sargv j hj1 hj2

/-- The events `execute_command` emits depend only on the tokenizer's
argc, rewritten buffer and dispatched argv prefix. -/
theorem execute_events_congr (BL AM : Nat) (s1 s2 : Esh)
    (h1 : (make_arg_array BL AM s1.buffer s1.argv s1.cnt).argc =
          (make_arg_array BL AM s2.buffer s2.argv s2.cnt).argc)
    (h2 : (make_arg_array BL AM s1.buffer s1.argv s1.cnt).buffer =
          (make_arg_array BL AM s2.buffer s2.argv s2.cnt).buffer)
    (h3 : (make_arg_array BL AM s1.buffer s1.argv s1.cnt).argv.take
            (min (make_arg_array BL AM s1.buffer s1.argv s1.cnt).argc AM) =
          (make_arg_array BL AM s2.buffer s2.argv s2.cnt).argv.take
            (min (make_arg_array BL AM s2.buffer s2.argv s2.cnt).argc AM)) :
    (execute_command BL AM s1).2 = (execute_command BL AM s2).2 := by
  simp only [execute_command]
  rw [h3, h2, h1]

/-- C9: round-trip idempotence. From a state with count 0 and the
escape flags clear, feeding a line of ordinary bytes plus newline, and
then feeding the same bytes plus newline again, produces identical
event traces - in particular identical callback invocations (same argc,
same argv indices, same pointed-to token bytes): the second line's
processing depends only on its own bytes. -/
theorem C9_roundtrip (BL AM : Nat) (st : Esh) (L : List Nat)
    (hIE : st.flagIE = false) (hIBE : st.flagIBE = false)
    (hcnt : st.cnt = 0)
    (hblen : st.buffer.length = BL + 1) (halen : st.argv.length = AM)
    (hL : ∀ c ∈ L, c ≠ 0 ∧ c ≠ 8 ∧ c ≠ 10 ∧ c ≠ 27 ∧ c ≠ 127)
    (hfit : L.length ≤ BL) :
    (feedAll BL AM st (L ++ [10])).2 =
    (feedAll BL AM (feedAll BL AM st (L ++ [10])).1 (L ++ [10])).2 := by
  obtain ⟨b, n0, a, f1, f2⟩ := st
  simp only at hIE hIBE hcnt hblen halen
  subst hIE
  subst hIBE
  subst hcnt
  have hnl : ∀ s : Esh, s.flagIE = false → s.flagIBE = false →
      feedAll BL AM s [10] =
        ((execute_command BL AM s).1,
         Event.echo 10 :: (execute_command BL AM s).2) := by
    intro s h1 h2
    rw [feedAll_cons, esh_rx_newline BL AM s h1 h2]
    simp [feedAll]
  have hplain1 : feedAll BL AM (Esh.mk b 0 a false false) L =
      (Esh.mk (storeList b 0 L) L.length a false false,
       L.map Event.echo) := by
    rw [feed_plain BL AM L (Esh.mk b 0 a false false) rfl rfl hL
      (by show 0 + L.length ≤ BL; omega)]
    simp
  have hr1full : feedAll BL AM (Esh.mk b 0 a false false) (L ++ [10]) =
      ((execute_command BL AM
          (Esh.mk (storeList b 0 L) L.length a false false)).1,
       L.map Event.echo ++
         (Event.echo 10 ::
           (execute_command BL AM
             (Esh.mk (storeList b 0 L) L.length a false false)).2)) := by
    rw [feedAll_append]
    simp only [hplain1]
    rw [hnl (Esh.mk (storeList b 0 L) L.length a false false) rfl rfl]
  have hst1 : (execute_command BL AM
      (Esh.mk (storeList b 0 L) L.length a false false)).1 =
      Esh.mk (make_arg_array BL AM (storeList b 0 L) a L.length).buffer 0
        (make_arg_array BL AM (storeList b 0 L) a L.length).argv false
        false := rfl
  have hplain2 : feedAll BL AM
      (Esh.mk (make_arg_array BL AM (storeList b 0 L) a L.length).buffer 0
        (make_arg_array BL AM (storeList b 0 L) a L.length).argv false
        false) L =
      (Esh.mk
        (storeList
          (make_arg_array BL AM (storeList b 0 L) a L.length).buffer 0 L)
        L.length
        (make_arg_array BL AM (storeList b 0 L) a L.length).argv false
        false,
       L.map Event.echo) := by
    rw [feed_plain BL AM L _ rfl rfl hL (by show 0 + L.length ≤ BL; omega)]
    simp
  have hr2full : feedAll BL AM
      (Esh.mk (make_arg_array BL AM (storeList b 0 L) a L.length).buffer 0
        (make_arg_array BL AM (storeList b 0 L) a L.length).argv false
        false) (L ++ [10]) =
      ((execute_command BL AM
          (Esh.mk
            (storeList
              (make_arg_array BL AM (storeList b 0 L) a L.length).buffer
              0 L)
            L.length
            (make_arg_array BL AM (storeList b 0 L) a L.length).argv
            false false)).1,
       L.map Event.echo ++
         (Event.echo 10 ::
           (execute_command BL AM
             (Esh.mk
               (storeList
                 (make_arg_array BL AM (storeList b 0 L) a
                   L.length).buffer 0 L)
               L.length
               (make_arg_array BL AM (storeList b 0 L) a L.length).argv
               false false)).2)) := by
    rw [feedAll_append]
    simp only [hplain2]
    rw [hnl _ rfl rfl]
  rw [hr1full]
  show L.map Event.echo ++ _ = (feedAll BL AM _ (L ++ [10])).2
  rw [hst1, hr2full]
  show _ = L.map Event.echo ++ _
  have hexec : (execute_command BL AM
      (Esh.mk (storeList b 0 L) L.length a false false)).2 =
      (execute_command BL AM
        (Esh.mk
          (storeList
            (make_arg_array BL AM (storeList b 0 L) a L.length).buffer 0
            L)
          L.length
          (make_arg_array BL AM (storeList b 0 L) a L.length).argv false
          false)).2 := by
    have hT1len : (make_arg_array BL AM (storeList b 0 L) a
        L.length).buffer.length = BL + 1 := by
      rw [make_arg_array_buffer_len, storeList_length]
      exact hblen
    have hpre : ∀ j, j < L.length →
        (storeList b 0 L).getD j 0 =
        (storeList
          (make_arg_array BL AM (storeList b 0 L) a L.length).buffer 0
          L).getD j 0 := by
      intro j hj
      have e1 := storeList_getD_lo L b 0 j hj (by omega)
      have e2 := storeList_getD_lo L
        (make_arg_array BL AM (storeList b 0 L) a L.length).buffer 0 j hj
        (by omega)
      simp only [Nat.zero_add] at e1 e2
      rw [e1, e2]
    obtain ⟨hargc, hbuf, hptr⟩ := exec_pieces_eq BL AM L.length
      (storeList b 0 L) a
      (storeList (make_arg_array BL AM (storeList b 0 L) a
        L.length).buffer 0 L)
      (make_arg_array BL AM (storeList b 0 L) a L.length).argv
      hpre
      (by rw [storeList_length]; exact hblen)
      (by rw [storeList_length]; exact hT1len)
      halen
      (by rw [make_arg_array_argv_len]; exact halen)
      hfit
      (fun j hj _ => storeList_getD_hi L _ 0 j (by omega))
    exact execute_events_congr BL AM
      (Esh.mk (storeList b 0 L) L.length a false false)
      (Esh.mk
        (storeList
          (make_arg_array BL AM (storeList b 0 L) a L.length).buffer 0 L)
        L.length
        (make_arg_array BL AM (storeList b 0 L) a L.length).argv false
        false)
      hargc hbuf hptr
  rw [hexec]

/-- C9 witness: the round trip at BUFFER_LEN = 4, ARGC_MAX = 2 feeding
the line `hi` twice from the freshly initialised state. -/
theorem C9_roundtrip_witness :
    ((esh_init 4 2).cnt = 0 ∧ (esh_init 4 2).buffer.length = 4 + 1 ∧
     (esh_init 4 2).argv.length = 2 ∧
     (∀ c ∈ ([104, 105] : List Nat),
       c ≠ 0 ∧ c ≠ 8 ∧ c ≠ 10 ∧ c ≠ 27 ∧ c ≠ 127) ∧
     ([104, 105] : List Nat).length ≤ 4) ∧
    (feedAll 4 2 (esh_init 4 2) ([104, 105] ++ [10])).2 =
    (feedAll 4 2 (feedAll 4 2 (esh_init 4 2) ([104, 105] ++ [10])).1
      ([104, 105] ++ [10])).2 :=
  ⟨⟨rfl, rfl, rfl, by decide, by decide⟩,
   C9_roundtrip 4 2 (esh_init 4 2) [104, 105] rfl rfl rfl rfl rfl
     (by decide) (by decide)⟩
